import Mathlib

/-!
Verification of the tool-protocol client runtime of the ollama-mcp-rag
repository, shallowly embedded in Lean 4.

Embedded sources:
* `src/server/utils/mcp.ts` — the enhanced `MCPService` (per-call subprocess,
  polling waits, arXiv fallback path).
* `src/unnamed/part_013` — the simplified `MCPService`
  (`parseServerResponse` over newline-delimited output).
* `src/unnamed/part_014` — the pooled `McpService` (tool-list TTL cache and
  single in-flight initialization promise).
* `src/server/utils/research-mcp.ts` — `ResearchMcpService` (execution
  statistics, query-driven tool selection).

Conventions: JavaScript timestamps are `Nat` milliseconds, JS numbers used in
averaged statistics are modelled as `ℚ`, JSON documents as an inductive
`Json`, and `JSON.parse` as an environment-supplied partial function
`String → Option Json`.
-/

namespace McpRag

/-! ## String utilities modelling JavaScript string primitives -/

/-- Character-list version of a leading-segment test, mirroring the way
`String.prototype.includes` scans candidate positions. -/
def charsLead : List Char → List Char → Bool
  | [], _ => true
  | _ :: _, [] => false
  | a :: as, b :: bs => a == b && charsLead as bs

/-- Substring occurrence test on character lists. -/
def charsContain (pat : List Char) : List Char → Bool
  | [] => charsLead pat []
  | c :: rest => charsLead pat (c :: rest) || charsContain pat rest

/-- Model of JavaScript `s.includes(pat)` (case-sensitive substring test). -/
def strIncludes (s pat : String) : Bool :=
  charsContain pat.data s.data

/-! ## A model of JSON documents

`JSON.parse` is a JavaScript library routine; the embedding treats it as an
environment-supplied partial function `String → Option Json` (`none` models a
parse exception). -/

/-- JSON values. Numbers are modelled as integers: every numeric literal the
embedded code compares against (request ids, counts) is integral. -/
inductive Json where
  | null : Json
  | bool : Bool → Json
  | num : Int → Json
  | str : String → Json
  | arr : List Json → Json
  | obj : List (String × Json) → Json

/-- Field lookup in an association list of JSON object fields. -/
def lookupField (fs : List (String × Json)) (k : String) : Option Json :=
  match fs with
  | [] => none
  | (k₀, v) :: rest => if k₀ == k then some v else lookupField rest k

/-- Model of JavaScript property access `j.k` (for object values). -/
def Json.getField : Json → String → Option Json
  | .obj fs, k => lookupField fs k
  | _, _ => none

/-- JavaScript truthiness of a JSON value: `null`, `false`, `0` and the empty
string are falsy; arrays and objects are always truthy. -/
def Json.truthy : Json → Bool
  | .null => false
  | .bool b => b
  | .num n => n != 0
  | .str s => s != ""
  | .arr _ => true
  | .obj _ => true

/-- Model of JavaScript `.length` on a JSON value: defined for arrays and
strings, `undefined` (`none`) otherwise. -/
def Json.lengthProp : Json → Option Nat
  | .arr xs => some xs.length
  | .str s => some s.length
  | _ => none

/-- Model of the JS object spread `\x7b...obj, k: v\x7d`: replace the field in
place when present, append it otherwise (also the semantics of `Map.set`). -/
def setField (fs : List (String × Json)) (k : String) (v : Json) :
    List (String × Json) :=
  match fs with
  | [] => [(k, v)]
  | (k₀, v₀) :: rest =>
    if k₀ == k then (k₀, v) :: rest else (k₀, v₀) :: setField rest k v

/-! ## `ResearchMcpService.selectToolsForQuery`
(src/server/utils/research-mcp.ts, lines 276–303) -/

/-- Academic research indicator keywords (research-mcp.ts line 281). -/
def academicKeywords : List String :=
  ["paper", "research", "study", "arxiv", "academic", "publication", "journal"]

/-- Web search indicator keywords (research-mcp.ts line 287). -/
def webKeywords : List String :=
  ["news", "current", "latest", "today", "recent", "website", "company"]

/-- Model of JavaScript `toLowerCase` on the query string. -/
def jsToLower (s : String) : String :=
  ⟨s.data.map Char.toLower⟩

/-- Embedding of `ResearchMcpService.selectToolsForQuery`
(research-mcp.ts lines 276–303).  `configTools` is `this.config.tools`. -/
def selectToolsForQuery (configTools : List String) (query : String) :
    List String :=
  let queryLower := jsToLower query
  let tools : List String :=
    (if academicKeywords.any (fun k => strIncludes queryLower k) then
      ["arxiv_query"] else [])
    ++ (if webKeywords.any (fun k => strIncludes queryLower k) then
      ["brave_search"] else [])
    ++ (if configTools.contains "hybrid_search" then
      ["hybrid_search"] else [])
  if tools.isEmpty then ["brave_search"] else tools

/-! ## `ResearchMcpService.updateExecutionStats`
(src/server/utils/research-mcp.ts, lines 308–324)

Execution times and averages are JavaScript numbers; the embedding models
them with exact rationals. -/

/-- One entry of `executionStats`. -/
structure ExecStat where
  count : Nat
  avg_time : ℚ
deriving DecidableEq

/-- Model of `Map.prototype.get` on the statistics map. -/
def statsGet (m : List (String × ExecStat)) (k : String) : Option ExecStat :=
  match m with
  | [] => none
  | (k₀, v) :: rest => if k₀ == k then some v else statsGet rest k

/-- Model of `Map.prototype.set` on the statistics map. -/
def statsSet (m : List (String × ExecStat)) (k : String) (v : ExecStat) :
    List (String × ExecStat) :=
  match m with
  | [] => [(k, v)]
  | (k₀, v₀) :: rest =>
    if k₀ == k then (k₀, v) :: rest else (k₀, v₀) :: statsSet rest k v

/-- Embedding of `ResearchMcpService.updateExecutionStats`
(research-mcp.ts lines 308–313): fetch-or-default, increment the count, and
fold the new time into the running average. -/
def updateExecutionStats (m : List (String × ExecStat)) (toolName : String)
    (executionTime : ℚ) : List (String × ExecStat) :=
  let stats := (statsGet m toolName).getD ⟨0, 0⟩
  let count : Nat := stats.count + 1
  let avg : ℚ := (stats.avg_time * ((count : ℚ) - 1) + executionTime) / (count : ℚ)
  statsSet m toolName ⟨count, avg⟩

/-- Recording a sequence of execution times in order. -/
def recordAll (m : List (String × ExecStat)) (toolName : String)
    (times : List ℚ) : List (String × ExecStat) :=
  times.foldl (fun acc t => updateExecutionStats acc toolName t) m

/-! ## The pooled `McpService` (src/unnamed/part_014)

`listTools` consults a TTL cache (`toolsCache`, `isCacheValid`), joins the
single in-flight initialization promise when one exists, and otherwise
starts a new initialization and publishes its promise before awaiting it.
The JavaScript event loop runs the synchronous part of each `listTools`
call atomically (there is no `await` before `this.initializationPromise`
is assigned), so concurrent arrivals are modelled as a sequence of atomic
entry steps against the service state. -/

/-- `ToolCache` of part_014 (lines 19–22): a tool list plus the timestamp at
which it was stored.  Tools are an abstract type `T`. -/
structure ToolCache (T : Type) where
  tools : List T
  timestamp : Nat

/-- The mutable fields of `McpService` relevant to caching and
initialization.  `initInFlight` is the identity of the published
`initializationPromise` (numbered by initialization order); `initCount`
counts how many initializations have been started — the observable the
spec calls the spawn count. -/
structure PoolState (T : Type) where
  toolsCache : Option (ToolCache T)
  initInFlight : Option Nat
  initCount : Nat

/-- `cacheDuration` of part_014 (line 27): five minutes in milliseconds. -/
def cacheDuration : Nat := 5 * 60 * 1000

/-- Embedding of `McpService.isCacheValid` (part_014 lines 102–105). -/
def isCacheValid (st : PoolState T) (now : Nat) : Bool :=
  match st.toolsCache with
  | none => false
  | some c => now - c.timestamp < cacheDuration

/-- What the synchronous entry of one `listTools` call does: serve the cache,
join the promise of initialization number `fid`, or start initialization
number `fid`. -/
inductive ListToolsAction (T : Type) where
  | serveCache (tools : List T)
  | join (fid : Nat)
  | start (fid : Nat)

/-- Embedding of the synchronous prefix of `McpService.listTools`
(part_014 lines 32–47): cached-and-valid ⇒ serve the cache; an
initialization promise in flight ⇒ await that same promise; otherwise
create and publish a new initialization promise. -/
def listToolsEnter (st : PoolState T) (now : Nat) :
    ListToolsAction T × PoolState T :=
  match st.toolsCache with
  | some c =>
    if now - c.timestamp < cacheDuration then (.serveCache c.tools, st)
    else listToolsStart st
  | none => listToolsStart st
where
  /-- The branch of `listTools` below the cache check. -/
  listToolsStart (st : PoolState T) : ListToolsAction T × PoolState T :=
    match st.initInFlight with
    | some fid => (.join fid, st)
    | none =>
      let fid := st.initCount + 1
      (.start fid, { st with initInFlight := some fid, initCount := fid })

/-- Embedding of the completion path of `McpService.listTools`
(part_014 lines 48–61): on success the tools are cached with the current
timestamp and the initialization promise slot is cleared (`finally`). -/
def listToolsComplete (st : PoolState T) (now : Nat) (tools : List T) :
    PoolState T :=
  { st with toolsCache := some ⟨tools, now⟩, initInFlight := none }

/-- Embedding of `McpService.clearCache` (part_014 lines 135–138). -/
def clearCache (st : PoolState T) : PoolState T :=
  { st with toolsCache := none }

/-- Embedding of the synchronous prefix of `McpService.refreshTools`
(part_014 lines 141–144): clear the cache, then re-enter `listTools`. -/
def refreshToolsEnter (st : PoolState T) (now : Nat) :
    ListToolsAction T × PoolState T :=
  listToolsEnter (clearCache st) now

/-- A burst of `n` concurrent `listTools` arrivals, each running its atomic
synchronous entry in order, with no initialization completing in between
(the cold-pool scenario); `times` are the arrival timestamps. -/
def processArrivals (st : PoolState T) (times : List Nat) :
    PoolState T × List (ListToolsAction T) :=
  match times with
  | [] => (st, [])
  | t :: rest =>
    let p := listToolsEnter st t
    let q := processArrivals p.2 rest
    (q.1, p.1 :: q.2)

/-- How one caller resolves once every in-flight initialization future is
resolved: `futureVal fid` is the value initialization number `fid`
produced. -/
def resolveAction (futureVal : Nat → List T) : ListToolsAction T → List T
  | .serveCache ts => ts
  | .join fid => futureVal fid
  | .start fid => futureVal fid

/-! ## Polling waits of the enhanced `MCPService`
(src/server/utils/mcp.ts)

Both `waitForResponse` (lines 328–359) and `waitForServerReady`
(lines 208–246) poll a shared buffer every 100 ms with `setTimeout`
until a predicate holds or a deadline passes.  The environment is a list
of `(arrivalTime, chunk)` pairs describing what the stream handlers have
appended to the buffer by each instant.  The loop is embedded with a fuel
argument (`timeoutMs + 1` suffices: every iteration advances time by
100 ms and the loop stops once past the deadline). -/

/-- Outcome of a polling wait: the promise resolves at time `t`, or rejects
at time `t` with an error message. -/
inductive WaitOutcome where
  | resolved (t : Nat)
  | rejected (t : Nat) (msg : String)
deriving DecidableEq

/-- The generic 100 ms polling loop.  At each poll: if `check` holds,
resolve; else if past `timeoutMs`, reject with `timeoutMsg`; else if
`dead` holds, reject with `deadMsg`; else poll again 100 ms later.
`waitForResponse` has no dead-process check (`dead` is constantly
false there); `waitForServerReady` checks readiness, then the timeout,
then process death — the order of this definition. -/
def pollLoop (check : Nat → Bool) (dead : Nat → Bool) (timeoutMs : Nat)
    (timeoutMsg deadMsg : String) : Nat → Nat → WaitOutcome
  | 0, t => .rejected t timeoutMsg
  | fuel + 1, t =>
    if check t then .resolved t
    else if timeoutMs < t then .rejected t timeoutMsg
    else if dead t then .rejected t deadMsg
    else pollLoop check dead timeoutMs timeoutMsg deadMsg fuel (t + 100)

/-- The chunks a stream handler has pushed into its buffer by time `t`. -/
def chunksUpTo (chunks : List (Nat × String)) (t : Nat) : List String :=
  (chunks.filter (fun c => decide (c.1 ≤ t))).map (fun c => c.2)

/-- The `hasResponse` test of `MCPService.waitForResponse` (mcp.ts
lines 337–340): some buffered stdout chunk contains the expected
pattern. -/
def hasResponseAt (chunks : List (Nat × String)) (pat : String) (t : Nat) :
    Bool :=
  (chunksUpTo chunks t).any (fun r => strIncludes r pat)

/-- Embedding of `MCPService.waitForResponse` (mcp.ts lines 328–359):
poll the stdout buffer from `t = 0` every 100 ms for a chunk containing
`pat`; past `timeoutMs`, reject with the timeout message.  No other
condition is consulted — in particular nothing about the subprocess. -/
def waitForResponse (chunks : List (Nat × String)) (pat : String)
    (timeoutMs : Nat) : WaitOutcome :=
  pollLoop (hasResponseAt chunks pat) (fun _ => false) timeoutMs
    ("Response timeout waiting for: " ++ pat) "" (timeoutMs + 1) 0

/-- The `isReady` test of `MCPService.waitForServerReady` (mcp.ts
lines 217–220): some buffered stderr log contains a readiness marker. -/
def readyAt (stderrChunks : List (Nat × String)) (t : Nat) : Bool :=
  (chunksUpTo stderrChunks t).any (fun log =>
    strIncludes log "Enhanced server started successfully" ||
    strIncludes log "server started")

/-- Whether the subprocess is observed dead at time `t`, given its exit
time (`none` = never exits on its own). -/
def deadAt (exitTime : Option Nat) (t : Nat) : Bool :=
  match exitTime with
  | some e => e ≤ t
  | none => false

/-- Embedding of `MCPService.waitForServerReady` (mcp.ts lines 208–246):
polls start after a 500 ms delay; readiness is read exclusively from the
stderr log buffer; past `timeoutMs` the wait rejects with
"Server startup timeout"; a dead process rejects with
"Server process died during startup". -/
def waitForServerReady (stderrChunks : List (Nat × String))
    (exitTime : Option Nat) (timeoutMs : Nat) : WaitOutcome :=
  pollLoop (readyAt stderrChunks) (deadAt exitTime) timeoutMs
    "Server startup timeout" "Server process died during startup"
    (timeoutMs + 1) 500

/-- The startup-readiness phase of `MCPService.searchArxiv`
(mcp.ts lines 94–98): `setupProcessMonitoring` collects stdout chunks into
`responses` and stderr chunks into `errorLogs`, and `waitForServerReady`
receives only `errorLogs` — the stdout stream (where a correlated
response to an initialize request would appear) plays no part in
readiness detection. -/
def sessionStartup (stdoutChunks stderrChunks : List (Nat × String))
    (exitTime : Option Nat) (timeoutMs : Nat) : WaitOutcome :=
  waitForServerReady stderrChunks exitTime timeoutMs

/-- The fate of a pending post-handshake request when the subprocess exits:
the only exit handler of the enhanced service
(mcp.ts lines 160–163) removes the process from `activeProcesses`; no code
path rejects or resolves a pending `waitForResponse`, whose outcome is
therefore that of the polling loop alone. -/
def pendingWaitWithExit (stdoutChunks : List (Nat × String))
    (exitTime : Option Nat) (pat : String) (timeoutMs : Nat) : WaitOutcome :=
  waitForResponse stdoutChunks pat timeoutMs

/-! ## `MCPService.parseSearchResponse` (src/server/utils/mcp.ts, 364–431)

The enhanced service scans the raw stdout chunks for one containing
`"id":2`, decodes it as JSON, extracts the text of the first content
block, decodes that text as a second JSON document, and builds the search
result from the inner document.  `jparse` models `JSON.parse`
(`none` = exception). -/

/-- The optional chain `parsed.result?.content?.[0]?.text` of mcp.ts
line 373 / part_013 line 176. -/
def contentText (j : Json) : Option Json :=
  match j.getField "result" with
  | none => none
  | some r =>
    match r.getField "content" with
    | some (.arr (c₀ :: _)) => c₀.getField "text"
    | _ => none

/-- The string value of a truthy content-block text, if any.  The embedded
protocol carries content-block text as a JSON string; a non-string text
value is not modelled. -/
def contentTextStr (j : Json) : Option String :=
  match contentText j with
  | some (.str s) => if s != "" then some s else none
  | _ => none

/-- Builds the result object of mcp.ts lines 377–390 from the decoded inner
document: `searchResult.success && searchResult.papers` truthy yields the
success object, otherwise the failure object with the inner error (or
the default message).  `total_results` is the JS `.length` of the papers
value, omitted when undefined. -/
def buildFromInner (inner : Json) : Json :=
  match inner.getField "papers" with
  | some papers =>
    if (inner.getField "success").elim false Json.truthy && papers.truthy then
      .obj ([("success", .bool true), ("papers", papers)]
        ++ (match papers.lengthProp with
            | some n => [("total_results", .num n)]
            | none => [])
        ++ [("execution_time",
             match inner.getField "execution_time" with
             | some v => if v.truthy then v else .num 0
             | none => .num 0)])
    else buildInnerFailure inner
  | none => buildInnerFailure inner
where
  /-- The failure object of mcp.ts lines 385–390. -/
  buildInnerFailure (inner : Json) : Json :=
    .obj [("success", .bool false),
          ("error",
           match inner.getField "error" with
           | some e => if e.truthy then e else .str "No papers found"
           | none => .str "No papers found"),
          ("papers", .arr [])]

/-- One iteration of the response loop of mcp.ts lines 367–396: `some r`
when this chunk determines the result, `none` when the chunk is skipped
(no `"id":2` marker, outer decode exception, missing/falsy content text,
or inner decode exception). -/
def handleChunk (jparse : String → Option Json) (chunk : String) :
    Option Json :=
  if strIncludes chunk "\"id\":2" then
    match jparse chunk with
    | none => none
    | some parsed =>
      match contentTextStr parsed with
      | none => none
      | some resultText =>
        match jparse resultText with
        | none => none
        | some inner => some (buildFromInner inner)
  else none

/-- The fallthrough of mcp.ts lines 398–421: look for any chunk containing
the word `error`, decode it for `error.message`, and otherwise report
that no valid response was received. -/
def errorFallthrough (jparse : String → Option Json)
    (chunks : List String) : Json :=
  match chunks.find? (fun r => strIncludes r "error") with
  | some errorResponse =>
    match jparse errorResponse with
    | some parsed =>
      .obj [("success", .bool false),
            ("error",
             match (parsed.getField "error").bind (fun e => e.getField "message") with
             | some m => if m.truthy then m else .str "Server error"
             | none => .str "Server error"),
            ("papers", .arr [])]
    | none =>
      .obj [("success", .bool false),
            ("error", .str "Server returned an error"),
            ("papers", .arr [])]
  | none =>
    .obj [("success", .bool false),
          ("error", .str "No valid response received from server"),
          ("papers", .arr [])]

/-- Embedding of `MCPService.parseSearchResponse` (mcp.ts lines 364–431). -/
def parseSearchResponse (jparse : String → Option Json)
    (chunks : List String) : Json :=
  parseSearchLoop chunks chunks
where
  /-- The `for` loop over the chunks, with the full chunk list kept for the
  error fallthrough. -/
  parseSearchLoop (allChunks : List String) : List String → Json
    | [] => errorFallthrough jparse allChunks
    | chunk :: rest =>
      match handleChunk jparse chunk with
      | some r => r
      | none => parseSearchLoop allChunks rest

/-! ## `MCPService.parseServerResponse` (src/unnamed/part_013, 164–221)

The simplified service splits the accumulated stdout into
newline-delimited lines, skips empty and non-JSON lines, and takes the
first line whose decoded `id` is `2` and whose first content-block text is
truthy; that text is decoded as the tool-specific inner document. -/

/-- The check `response.id === 2` of part_013 line 176. -/
def idIsTwo (j : Json) : Bool :=
  match j.getField "id" with
  | some (.num n) => n == 2
  | _ => false

/-- Builds the result object of part_013 lines 180–196 from the decoded
inner document; `executionTime` is the outer elapsed-time measurement
used by every branch. -/
def buildServerResult (inner : Json) (executionTime : Nat) : Json :=
  match inner.getField "papers" with
  | some papers =>
    if (inner.getField "success").elim false Json.truthy && papers.truthy then
      .obj ([("success", .bool true), ("papers", papers)]
        ++ (match papers.lengthProp with
            | some n => [("total_results", .num n)]
            | none => [])
        ++ [("execution_time", .num executionTime)])
    else buildServerFailure inner executionTime
  | none => buildServerFailure inner executionTime
where
  /-- The failure object of part_013 lines 190–195. -/
  buildServerFailure (inner : Json) (executionTime : Nat) : Json :=
    .obj [("success", .bool false),
          ("error",
           match inner.getField "error" with
           | some e => if e.truthy then e else .str "Search returned no results"
           | none => .str "Search returned no results"),
          ("papers", .arr []),
          ("execution_time", .num executionTime)]

/-- One iteration of the line loop of part_013 lines 171–202: `some r` when
this line determines the result, `none` when the line is skipped (decode
exception, `id ≠ 2`, missing/falsy content text, or inner decode
exception). -/
def handleLine (jparse : String → Option Json) (executionTime : Nat)
    (line : String) : Option Json :=
  match jparse line with
  | none => none
  | some response =>
    if idIsTwo response then
      match contentTextStr response with
      | none => none
      | some resultText =>
        match jparse resultText with
        | none => none
        | some inner => some (buildServerResult inner executionTime)
    else none

/-- The failure object of part_013 lines 205–210, produced when no line
yields a result. -/
def noValidResultObj (executionTime : Nat) : Json :=
  .obj [("success", .bool false),
        ("error", .str "No valid search results found in server response"),
        ("papers", .arr []),
        ("execution_time", .num executionTime)]

/-- The loop of part_013 lines 171–210 over the (already filtered) lines. -/
def serverLineLoop (jparse : String → Option Json) (executionTime : Nat) :
    List String → Json
  | [] => noValidResultObj executionTime
  | line :: rest =>
    match handleLine jparse executionTime line with
    | some r => r
    | none => serverLineLoop jparse executionTime rest

/-- Embedding of `MCPService.parseServerResponse` (part_013 lines 164–221)
over the list of newline-delimited lines: filter out lines that are empty
after trimming, then scan for the first result-determining line. -/
def parseServerResponse (jparse : String → Option Json)
    (lines : List String) (executionTime : Nat) : Json :=
  serverLineLoop jparse executionTime
    (lines.filter (fun line => line.trim != ""))

/-- The split of the raw accumulated output into lines
(part_013 line 169). -/
def parseServerOutput (jparse : String → Option Json)
    (serverOutput : String) (executionTime : Nat) : Json :=
  parseServerResponse jparse (serverOutput.splitOn "\n") executionTime

/-- A line that is protocol noise for the pending search request: empty
after trimming, not parseable JSON, or parseable with an `id` different
from the pending request id 2. -/
def NoiseLine (jparse : String → Option Json) (l : String) : Prop :=
  l.trim = "" ∨ jparse l = none
    ∨ ∃ p, jparse l = some p ∧ idIsTwo p = false

/-! ## `MCPService.fallbackArxivSearch` (src/server/utils/mcp.ts, 436–483)

The direct-network fallback performs an HTTP request against the public
arXiv API and parses the returned Atom XML.  The network and the
per-entry regular-expression extraction (`parseArxivXML` /
`parseArxivEntry`, which drops entries that fail to parse) are the
environment: `ok entries` carries the outcome of `parseArxivEntry` for
each `<entry>` block (`none` = the entry was dropped). -/

/-- Environment of one fallback attempt. -/
inductive FetchOutcome where
  | netFail (msg : String)
  | httpFail (status : Nat) (statusText : String)
  | ok (entries : List (Option Json))

/-- The failure object of mcp.ts lines 476–481. -/
def fallbackFailureObj (msg : String) (elapsed : Nat) : Json :=
  .obj [("success", .bool false),
        ("error", .str ("Fallback search failed: " ++ msg)),
        ("papers", .arr []),
        ("execution_time", .num elapsed)]

/-- Embedding of `MCPService.fallbackArxivSearch` (mcp.ts lines 436–483):
a fetch rejection or a non-OK HTTP status lands in the `catch` block and
produces the structured failure object; otherwise the parsed papers are
truncated to `maxResults` and wrapped in the structured success object. -/
def fallbackArxivSearch (fenv : FetchOutcome) (maxResults elapsed : Nat) :
    Json :=
  match fenv with
  | .netFail msg => fallbackFailureObj msg elapsed
  | .httpFail status statusText =>
    fallbackFailureObj
      ("ArXiv API returned " ++ toString status ++ ": " ++ statusText) elapsed
  | .ok entries =>
    let papers := entries.filterMap id
    .obj [("success", .bool true),
          ("papers", .arr (papers.take maxResults)),
          ("total_results", .num papers.length),
          ("execution_time", .num elapsed)]

/-- The keys of a JSON object, in order. -/
def jsonKeys : Json → List String
  | .obj fs => fs.map (fun f => f.1)
  | _ => []

/-! ## `MCPService.searchArxiv` routing (src/server/utils/mcp.ts, 75–141)

The protocol attempt either returns a result envelope (`parseSearchResponse`
catches internally and always returns, covering explicit server error
envelopes and tool-reported failures) or throws one of the errors below;
the `catch` of `searchArxiv` re-routes to the fallback exactly when the
thrown message contains the substring `timeout`. -/

/-- The faults the protocol path can throw, with the throw sites:
`noStreams` (line 91), `startupTimeout` (line 229), `processDied`
(line 235), `stdinUnavailable` (line 304), `sendFailed` /
`serializeFailed` (lines 314, 320, wrapping an external message), and
`responseTimeout` (line 349). -/
inductive ProtoFailure where
  | noStreams
  | startupTimeout
  | processDied
  | stdinUnavailable
  | sendFailed (inner : String)
  | serializeFailed (inner : String)
  | responseTimeout (pat : String)

/-- The literal message each throw site attaches. -/
def ProtoFailure.message : ProtoFailure → String
  | .noStreams => "Failed to create server process with required streams"
  | .startupTimeout => "Server startup timeout"
  | .processDied => "Server process died during startup"
  | .stdinUnavailable => "Server stdin not available"
  | .sendFailed inner => "Failed to send message: " ++ inner
  | .serializeFailed inner => "Message serialization failed: " ++ inner
  | .responseTimeout pat => "Response timeout waiting for: " ++ pat

/-- The spread `\x7b...searchResult, execution_time\x7d` of mcp.ts
lines 113–116. -/
def withExecTime (r : Json) (elapsed : Nat) : Json :=
  match r with
  | .obj fs => .obj (setField fs "execution_time" (.num elapsed))
  | _ => .obj [("execution_time", .num elapsed)]

/-- Whether `searchArxiv` routes the request to the fallback path: yes when
the server file is unavailable (mcp.ts lines 78–81), and on a thrown
failure exactly when its message contains `timeout` (lines 123–126). -/
def fallbackAttempted (avail : Bool) (outcome : Except ProtoFailure Json) :
    Bool :=
  if !avail then true
  else
    match outcome with
    | .ok _ => false
    | .error f => strIncludes f.message "timeout"

/-- Embedding of `MCPService.searchArxiv` (mcp.ts lines 75–141): route to
the fallback or return the protocol result / the structured error object
of lines 128–133. -/
def searchArxiv (avail : Bool) (outcome : Except ProtoFailure Json)
    (fenv : FetchOutcome) (maxResults elapsed : Nat) : Json :=
  if !avail then fallbackArxivSearch fenv maxResults elapsed
  else
    match outcome with
    | .ok searchResult => withExecTime searchResult elapsed
    | .error f =>
      if strIncludes f.message "timeout" then
        fallbackArxivSearch fenv maxResults elapsed
      else
        .obj [("success", .bool false),
              ("error", .str f.message),
              ("papers", .arr []),
              ("execution_time", .num elapsed)]

/-! ## Helper lemmas -/

theorem charsLead_append {p xs : List Char} (ys : List Char)
    (h : charsLead p xs = true) : charsLead p (xs ++ ys) = true := by
  induction p generalizing xs with
  | nil => simp [charsLead]
  | cons a as ih =>
    cases xs with
    | nil => simp [charsLead] at h
    | cons b bs =>
      simp only [charsLead, Bool.and_eq_true] at h ⊢
      exact ⟨h.1, ih h.2⟩

theorem charsContain_append_left {p xs : List Char} (ys : List Char)
    (h : charsContain p xs = true) : charsContain p (xs ++ ys) = true := by
  induction xs with
  | nil =>
    cases p with
    | nil =>
      cases ys with
      | nil => simpa [charsContain] using h
      | cons c cs => simp [charsContain, charsLead]
    | cons a as => simp [charsContain, charsLead] at h
  | cons c cs ih =>
    simp only [charsContain, Bool.or_eq_true] at h ⊢
    rcases h with h | h
    · exact Or.inl (charsLead_append ys h)
    · exact Or.inr (ih h)

theorem strIncludes_append_left {a : String} (b : String) {pat : String}
    (h : strIncludes a pat = true) : strIncludes (a ++ b) pat = true := by
  unfold strIncludes at h ⊢
  rw [String.data_append]
  exact charsContain_append_left b.data h

/-! ## Claim theorems -/

/-- C10: for every query string, `selectToolsForQuery` returns a non-empty
tool list; it always includes `hybrid_search` when the service
configuration enables that tool; and when no academic or web keyword
matches the query and no tool was otherwise selected it defaults to
`["brave_search"]`, so the research-query executor always has at least
one tool to dispatch. -/
theorem selectToolsForQuery_spec (configTools : List String)
    (query : String) :
    selectToolsForQuery configTools query ≠ []
    ∧ ("hybrid_search" ∈ configTools →
        "hybrid_search" ∈ selectToolsForQuery configTools query)
    ∧ (academicKeywords.any (fun k => strIncludes (jsToLower query) k) = false →
        webKeywords.any (fun k => strIncludes (jsToLower query) k) = false →
        "hybrid_search" ∉ configTools →
        selectToolsForQuery configTools query = ["brave_search"]) := by
  unfold selectToolsForQuery
  rcases ha : academicKeywords.any (fun k => strIncludes (jsToLower query) k) <;>
    rcases hw : webKeywords.any (fun k => strIncludes (jsToLower query) k) <;>
    rcases hh : configTools.contains "hybrid_search" <;>
    simp_all [List.elem_iff]

/-- Witness for C10 at a concrete configuration and query. -/
theorem selectToolsForQuery_spec_witness :
    selectToolsForQuery ["arxiv_query", "web_scraper"] "hello" = ["brave_search"] :=
  (selectToolsForQuery_spec ["arxiv_query", "web_scraper"] "hello").2.2
    (by decide) (by decide) (by decide)

theorem statsGet_statsSet_self (m : List (String × ExecStat)) (k : String)
    (v : ExecStat) : statsGet (statsSet m k v) k = some v := by
  induction m with
  | nil => simp [statsSet, statsGet]
  | cons hd tl ih =>
    obtain ⟨k₀, v₀⟩ := hd
    by_cases h : k₀ = k
    · simp [statsSet, statsGet, h]
    · have hb : (k₀ == k) = false := by simpa using h
      simp [statsSet, statsGet, hb, ih]

theorem statsGet_statsSet_other (m : List (String × ExecStat))
    (k k' : String) (v : ExecStat) (h : k' ≠ k) :
    statsGet (statsSet m k v) k' = statsGet m k' := by
  have hkk : (k == k') = false := beq_eq_false_iff_ne.mpr (Ne.symm h)
  induction m with
  | nil => simp [statsSet, statsGet, hkk]
  | cons hd tl ih =>
    obtain ⟨k₀, v₀⟩ := hd
    rcases h₀ : (k₀ == k) with _ | _
    · simp [statsSet, statsGet, h₀, ih]
    · have hk₀ : k₀ = k := by simpa using h₀
      subst hk₀
      simp [statsSet, statsGet, h₀, hkk]

theorem updateExecutionStats_step (m : List (String × ExecStat))
    (toolName : String) (t : ℚ) (n : Nat) (q : ℚ)
    (h : statsGet m toolName = some ⟨n, q⟩) :
    statsGet (updateExecutionStats m toolName t) toolName
      = some ⟨n + 1, (q * n + t) / (n + 1)⟩ := by
  unfold updateExecutionStats
  rw [h]
  simp only [Option.getD_some]
  rw [statsGet_statsSet_self]
  congr 2
  push_cast
  ring_nf

theorem recordAll_running (toolName : String) (times : List ℚ) :
    ∀ (m : List (String × ExecStat)) (n : Nat) (s : ℚ), 1 ≤ n →
      statsGet m toolName = some ⟨n, s / n⟩ →
      statsGet (recordAll m toolName times) toolName
        = some ⟨n + times.length, (s + times.sum) / (n + times.length)⟩ := by
  induction times with
  | nil => intro m n s _ h; simpa [recordAll] using h
  | cons t ts ih =>
    intro m n s hn h
    have hstep := updateExecutionStats_step m toolName t n (s / n) h
    have hnz : (n : ℚ) ≠ 0 := by positivity
    have havg : (s / n * n + t) / ((n : ℚ) + 1) = (s + t) / ((n : ℚ) + 1) := by
      rw [div_mul_cancel₀ _ hnz]
    rw [havg] at hstep
    have hrec := ih (updateExecutionStats m toolName t) (n + 1) (s + t)
      (by omega) (by push_cast at hstep ⊢; exact hstep)
    show statsGet (recordAll (updateExecutionStats m toolName t) toolName ts)
        toolName = _
    rw [hrec]
    congr 2
    · simp only [List.length_cons]
      omega
    · simp only [List.sum_cons, List.length_cons]
      push_cast
      ring_nf

theorem recordAll_other (m : List (String × ExecStat)) (toolName : String)
    (times : List ℚ) (k : String) (h : k ≠ toolName) :
    statsGet (recordAll m toolName times) k = statsGet m k := by
  induction times generalizing m with
  | nil => simp [recordAll]
  | cons t ts ih =>
    show statsGet (recordAll (updateExecutionStats m toolName t) toolName ts) k = _
    rw [ih, updateExecutionStats, statsGet_statsSet_other _ _ _ _ h]

/-- C9: for every sequence of recorded execution times of a given tool (an
exact-arithmetic model of the JS numbers), the execution statistics map
satisfies: the tool's count equals the number of recorded executions —
incremented by exactly one per `updateExecutionStats` call — and its
`avg_time` equals the arithmetic mean of all recorded execution times for
that tool; statistics for other tools are unchanged by a recording. -/
theorem executionStats_spec (m₀ : List (String × ExecStat))
    (toolName : String) (times : List ℚ)
    (h₀ : statsGet m₀ toolName = none) (hne : times ≠ []) :
    statsGet (recordAll m₀ toolName times) toolName
      = some ⟨times.length, times.sum / (times.length : ℚ)⟩
    ∧ (∀ k, k ≠ toolName →
        statsGet (recordAll m₀ toolName times) k = statsGet m₀ k)
    ∧ (∀ (m : List (String × ExecStat)) (t : ℚ),
        (statsGet (updateExecutionStats m toolName t) toolName).map ExecStat.count
          = some (((statsGet m toolName).map ExecStat.count).getD 0 + 1)) := by
  refine ⟨?_, fun k hk => recordAll_other m₀ toolName times k hk, ?_⟩
  · obtain ⟨t, ts, rfl⟩ := List.exists_cons_of_ne_nil hne
    have hfirst : statsGet (updateExecutionStats m₀ toolName t) toolName
        = some ⟨1, t / 1⟩ := by
      unfold updateExecutionStats
      rw [h₀, statsGet_statsSet_self]
      norm_num
    have := recordAll_running toolName ts (updateExecutionStats m₀ toolName t)
      1 t (by omega) hfirst
    show statsGet (recordAll (updateExecutionStats m₀ toolName t) toolName ts)
        toolName = _
    rw [this]
    congr 2
    · simp [Nat.add_comm]
    · simp only [List.sum_cons, List.length_cons]
      push_cast
      ring_nf
  · intro m t
    rcases h : statsGet m toolName with _ | ⟨n, q⟩
    · unfold updateExecutionStats
      rw [h, statsGet_statsSet_self]
      simp
    · simp [updateExecutionStats_step m toolName t n q h, h]

/-- Witness for C9: recording times 2 and 4 yields count 2 and mean 3. -/
theorem executionStats_spec_witness :
    statsGet (recordAll [] "arxiv_query" [2, 4]) "arxiv_query"
      = some ⟨2, 3⟩ := by
  have h := (executionStats_spec [] "arxiv_query" [2, 4] rfl (by decide)).1
  rw [h]
  norm_num

theorem isCacheValid_congr {st st' : PoolState T} (h : st.toolsCache = st'.toolsCache)
    (u : Nat) : isCacheValid st u = isCacheValid st' u := by
  unfold isCacheValid
  rw [h]

theorem listToolsEnter_invalid {st : PoolState T} {now : Nat}
    (hc : isCacheValid st now = false) :
    listToolsEnter st now = listToolsEnter.listToolsStart st := by
  unfold isCacheValid at hc
  unfold listToolsEnter
  rcases h : st.toolsCache with _ | c
  · rfl
  · rw [h] at hc
    simp only [h]
    rw [if_neg]
    simpa using hc

theorem processArrivals_join (st : PoolState T) (fid : Nat) (times : List Nat)
    (hin : st.initInFlight = some fid)
    (hc : ∀ t ∈ times, isCacheValid st t = false) :
    processArrivals st times = (st, List.replicate times.length (.join fid)) := by
  induction times with
  | nil => simp [processArrivals]
  | cons t ts ih =>
    have henter : listToolsEnter st t = (.join fid, st) := by
      rw [listToolsEnter_invalid (hc t (by simp))]
      unfold listToolsEnter.listToolsStart
      rw [hin]
    unfold processArrivals
    simp only [henter, ih (fun u hu => hc u (by simp [hu]))]
    simp [List.replicate_succ]

/-- C1: for every burst of `listTools`/`invoke` arrivals hitting the pooled
service while it holds no valid cached tool list and no in-flight
initialization, exactly one initialization is started: the first arrival
publishes initialization future number `initCount + 1` and every later
arrival joins that same future, so the initialization count rises by
exactly one and, once the single future resolves, every caller resolves
with the same value. -/
theorem singleInitialization_spec (st₀ : PoolState T) (times : List Nat)
    (hin : st₀.initInFlight = none)
    (hc : ∀ t ∈ times, isCacheValid st₀ t = false)
    (hne : times ≠ []) :
    (processArrivals st₀ times).2
      = .start (st₀.initCount + 1)
        :: List.replicate (times.length - 1) (.join (st₀.initCount + 1))
    ∧ (processArrivals st₀ times).1.initCount = st₀.initCount + 1
    ∧ ∀ futureVal : Nat → List T,
        ((processArrivals st₀ times).2).map (resolveAction futureVal)
          = List.replicate times.length (futureVal (st₀.initCount + 1)) := by
  obtain ⟨t, ts, rfl⟩ := List.exists_cons_of_ne_nil hne
  set st₁ : PoolState T :=
    { st₀ with initInFlight := some (st₀.initCount + 1),
               initCount := st₀.initCount + 1 } with hst₁
  have henter : listToolsEnter st₀ t = (.start (st₀.initCount + 1), st₁) := by
    rw [listToolsEnter_invalid (hc t (by simp))]
    unfold listToolsEnter.listToolsStart
    rw [hin]
  have hcache₁ : st₁.toolsCache = st₀.toolsCache := rfl
  have hrest := processArrivals_join st₁ (st₀.initCount + 1) ts rfl
    (fun u hu => by rw [isCacheValid_congr hcache₁ u]; exact hc u (by simp [hu]))
  have hall : processArrivals st₀ (t :: ts)
      = (st₁, .start (st₀.initCount + 1)
          :: List.replicate ts.length (.join (st₀.initCount + 1))) := by
    unfold processArrivals
    simp only [henter, hrest]
  refine ⟨by rw [hall]; simp, by rw [hall], ?_⟩
  intro futureVal
  rw [hall]
  simp [resolveAction, List.map_replicate, List.replicate_succ]

/-- Witness for C1: three concurrent arrivals on a cold pool produce one
`start` of future 1 and two `join`s of the same future. -/
theorem singleInitialization_spec_witness :
    (processArrivals (T := Nat) ⟨none, none, 0⟩ [5, 6, 7]).2
      = [.start 1, .join 1, .join 1]
    ∧ (processArrivals (T := Nat) ⟨none, none, 0⟩ [5, 6, 7]).1.initCount = 1 := by
  have h := singleInitialization_spec (T := Nat) ⟨none, none, 0⟩ [5, 6, 7]
    rfl (fun t _ => rfl) (by decide)
  exact ⟨by rw [h.1]; rfl, h.2.1⟩

/-- C5: `listTools` serves the cached tool list exactly when a cache entry
exists whose age is strictly below the five-minute TTL — no round trip is
performed and the state is unchanged; a call finding the cache absent or
expired (and no initialization in flight) starts a fresh round trip whose
completion replaces the cache entry with a new timestamp; `clearCache`
empties the cache and `refreshTools` therefore always starts a round
trip; an entry at or past its TTL is never served. -/
theorem listToolsCache_spec (st : PoolState T) (now : Nat) :
    (∀ c, st.toolsCache = some c → now - c.timestamp < cacheDuration →
      listToolsEnter st now = (.serveCache c.tools, st))
    ∧ (∀ ts st', listToolsEnter st now = (.serveCache ts, st') →
      ∃ c, st.toolsCache = some c ∧ now - c.timestamp < cacheDuration
        ∧ ts = c.tools ∧ st' = st)
    ∧ (isCacheValid st now = false → st.initInFlight = none →
      listToolsEnter st now
        = (.start (st.initCount + 1),
           { st with initInFlight := some (st.initCount + 1),
                     initCount := st.initCount + 1 }))
    ∧ (∀ tools t, (listToolsComplete st t tools).toolsCache = some ⟨tools, t⟩)
    ∧ ((clearCache st).toolsCache = none)
    ∧ (st.initInFlight = none →
      refreshToolsEnter st now
        = (.start (st.initCount + 1),
           { st with toolsCache := none,
                     initInFlight := some (st.initCount + 1),
                     initCount := st.initCount + 1 })) := by
  refine ⟨?_, ?_, ?_, fun tools t => rfl, rfl, ?_⟩
  · intro c hc hfresh
    unfold listToolsEnter
    rw [hc]
    simp [hfresh]
  · intro ts st' h
    rcases hc : st.toolsCache with _ | c
    · rw [listToolsEnter_invalid (by unfold isCacheValid; rw [hc])] at h
      unfold listToolsEnter.listToolsStart at h
      rcases hin : st.initInFlight with _ | fid <;> rw [hin] at h <;> simp at h
    · by_cases hfresh : now - c.timestamp < cacheDuration
      · have hval : listToolsEnter st now = (.serveCache c.tools, st) := by
          unfold listToolsEnter
          rw [hc]
          simp [hfresh]
        rw [hval] at h
        simp only [Prod.mk.injEq, ListToolsAction.serveCache.injEq] at h
        exact ⟨c, rfl, hfresh, h.1.symm, h.2.symm⟩
      · have hstale : isCacheValid st now = false := by
          unfold isCacheValid
          rw [hc]
          simpa using hfresh
        rw [listToolsEnter_invalid hstale] at h
        unfold listToolsEnter.listToolsStart at h
        rcases hin : st.initInFlight with _ | fid <;> rw [hin] at h <;> simp at h
  · intro hc hin
    rw [listToolsEnter_invalid hc]
    unfold listToolsEnter.listToolsStart
    rw [hin]
  · intro hin
    unfold refreshToolsEnter listToolsEnter listToolsEnter.listToolsStart
      clearCache
    simp only
    rw [hin]

/-- Witness for C5 at concrete states: a 100 ms old entry is served
unchanged, and a just-expired entry (age exactly the TTL) triggers a
fresh initialization. -/
theorem listToolsCache_spec_witness :
    listToolsEnter (T := Nat) ⟨some ⟨[3], 0⟩, none, 0⟩ 100
      = (.serveCache [3], ⟨some ⟨[3], 0⟩, none, 0⟩)
    ∧ listToolsEnter (T := Nat) ⟨some ⟨[3], 0⟩, none, 0⟩ 300000
      = (.start 1, ⟨some ⟨[3], 0⟩, some 1, 1⟩) := by
  constructor
  · exact (listToolsCache_spec (T := Nat) ⟨some ⟨[3], 0⟩, none, 0⟩ 100).1
      ⟨[3], 0⟩ rfl (by decide)
  · exact (listToolsCache_spec (T := Nat) ⟨some ⟨[3], 0⟩, none, 0⟩ 300000).2.2.1
      (by decide) rfl

theorem pollLoop_noCheck_rejects (check dead : Nat → Bool) (m : Nat)
    (tm dm : String) (hch : ∀ u, check u = false) (hd : ∀ u, dead u = false) :
    ∀ fuel t, m < t + 100 * fuel → t ≤ m + 100 →
      ∃ T, pollLoop check dead m tm dm fuel t = .rejected T tm
        ∧ m < T ∧ T ≤ m + 100 := by
  intro fuel
  induction fuel with
  | zero =>
    intro t h₁ h₂
    exact ⟨t, rfl, by omega, h₂⟩
  | succ fuel ih =>
    intro t h₁ h₂
    unfold pollLoop
    rw [hch t, hd t]
    by_cases hm : m < t
    · rw [if_pos hm]
      exact ⟨t, by simp, hm, h₂⟩
    · rw [if_neg hm]
      simp only [Bool.false_eq_true, if_false]
      exact ih (t + 100) (by omega) (by omega)

theorem pollLoop_resolves (check dead : Nat → Bool) (m : Nat)
    (tm dm : String)
    (hmono : ∀ u v, u ≤ v → check u = true → check v = true)
    (hd : ∀ u, dead u = false) (a : Nat) (ha : check a = true) (ham : a ≤ m) :
    ∀ fuel t, m + 100 < t + 100 * fuel → t ≤ m + 100 →
      (check t = true ∨ t ≤ a + 100) →
      ∃ T, pollLoop check dead m tm dm fuel t = .resolved T := by
  intro fuel
  induction fuel with
  | zero =>
    intro t h₁ h₂ _
    omega
  | succ fuel ih =>
    intro t h₁ h₂ h₃
    unfold pollLoop
    by_cases hct : check t = true
    · rw [hct]
      exact ⟨t, by simp⟩
    · have hta : t < a := by
        rcases Nat.lt_or_ge t a with h | h
        · exact h
        · exact absurd (hmono a t h ha) hct
      rw [Bool.not_eq_true] at hct
      rw [hct]
      have htm : ¬ m < t := by omega
      rw [if_neg htm, hd t]
      simp only [Bool.false_eq_true, if_false]
      exact ih (t + 100) (by omega) (by omega) (Or.inr (by omega))

theorem chunksUpTo_mono {chunks : List (Nat × String)} {u v : Nat}
    (huv : u ≤ v) {s : String} (h : s ∈ chunksUpTo chunks u) :
    s ∈ chunksUpTo chunks v := by
  unfold chunksUpTo at h ⊢
  simp only [List.mem_map, List.mem_filter] at h ⊢
  obtain ⟨c, ⟨hc, hle⟩, rfl⟩ := h
  exact ⟨c, ⟨hc, by simp only [decide_eq_true_eq] at hle ⊢; omega⟩, rfl⟩

theorem readyAt_mono (stderrChunks : List (Nat × String)) (u v : Nat)
    (huv : u ≤ v) (h : readyAt stderrChunks u = true) :
    readyAt stderrChunks v = true := by
  unfold readyAt at h ⊢
  rw [List.any_eq_true] at h ⊢
  obtain ⟨s, hs, hmark⟩ := h
  exact ⟨s, chunksUpTo_mono huv hs, hmark⟩

set_option maxRecDepth 40000 in
/-- C2 counterexample: the subprocess exits at time 0 with two-phase
handshake already done and a `tools/call` request pending (`"id":2`), no
response ever arriving, and the code-level request timeout of 45000 ms.
The pending wait is rejected only at 45100 ms with the polling-timeout
message — not immediately at the exit, and not with a "connection lost"
error (no such rejection exists in the code: the only exit handler,
mcp.ts lines 160–163, merely removes the process from `activeProcesses`). -/
theorem pendingRejection_counterexample :
    pendingWaitWithExit [] (some 0) "\"id\":2" 45000
      = .rejected 45100 "Response timeout waiting for: \"id\":2"
    ∧ pendingWaitWithExit [] (some 0) "\"id\":2" 45000
      ≠ .rejected 0 "connection lost" := by
  constructor
  · rfl
  · intro h
    rw [(rfl : pendingWaitWithExit [] (some 0) "\"id\":2" 45000
      = .rejected 45100 "Response timeout waiting for: \"id\":2")] at h
    exact absurd (WaitOutcome.rejected.injEq .. ▸ congrArg id h) (by simp)

/-- C2 as amended: a request pending past the handshake phase whose
expected response never arrives is rejected only by its own timeout —
strictly after `timeoutMs`, within one 100 ms poll period, and with the
message `Response timeout waiting for: <pattern>` — regardless of if and
when the subprocess exits; the exit is not detected by the pending wait
(only `waitForServerReady`, during startup, checks process death). -/
theorem pendingRejection_spec (stdoutChunks : List (Nat × String))
    (exitTime : Option Nat) (pat : String) (timeoutMs : Nat)
    (h : ∀ t, hasResponseAt stdoutChunks pat t = false) :
    ∃ T, pendingWaitWithExit stdoutChunks exitTime pat timeoutMs
        = .rejected T ("Response timeout waiting for: " ++ pat)
      ∧ timeoutMs < T ∧ T ≤ timeoutMs + 100 := by
  unfold pendingWaitWithExit waitForResponse
  exact pollLoop_noCheck_rejects (hasResponseAt stdoutChunks pat)
    (fun _ => false) timeoutMs _ _ h (fun _ => rfl) (timeoutMs + 1) 0
    (by omega) (by omega)

/-- Witness for amended C2 at a concrete environment. -/
theorem pendingRejection_spec_witness :
    ∃ T, pendingWaitWithExit [] (some 0) "\"id\":2" 200
        = .rejected T ("Response timeout waiting for: " ++ "\"id\":2")
      ∧ 200 < T ∧ T ≤ 300 :=
  pendingRejection_spec [] (some 0) "\"id\":2" 200 (fun _ => rfl)

set_option maxRecDepth 40000 in
/-- C4 counterexample: a correlated response to the initialize handshake
request is on the stdout stream from time 0, the process stays alive, but
no readiness marker ever appears on stderr; with the 30000 ms startup
timeout of the enhanced service, startup fails with
`Server startup timeout` instead of confirming readiness — the
response-correlated detection strategy the claim requires is not
implemented (`waitForServerReady` reads only the stderr log buffer). -/
theorem readiness_counterexample :
    sessionStartup
      [(0, "\x7b\"jsonrpc\":\"2.0\",\"id\":1,\"result\":\x7b\x7d\x7d")]
      [] none 30000
      = .rejected 30100 "Server startup timeout" := by
  rfl

/-- C4 as amended: during session startup, readiness is confirmed only by
the readiness marker (`Enhanced server started successfully` or
`server started`) observed on the stderr stream — the stdout stream, where
a correlated handshake response would appear, plays no part in readiness
detection; if the marker is observed at some time within the startup
timeout (process alive), the wait resolves, and if it is never observed
(process alive), the wait rejects with `Server startup timeout` strictly
after the timeout, within one poll period. -/
theorem readiness_spec (stderrChunks : List (Nat × String))
    (exitTime : Option Nat) (timeoutMs : Nat) (hbig : 400 ≤ timeoutMs) :
    (∀ a, a ≤ timeoutMs → readyAt stderrChunks a = true →
      (∀ u, deadAt exitTime u = false) →
      ∃ T, waitForServerReady stderrChunks exitTime timeoutMs = .resolved T)
    ∧ ((∀ u, readyAt stderrChunks u = false) →
      (∀ u, deadAt exitTime u = false) →
      ∃ T, waitForServerReady stderrChunks exitTime timeoutMs
          = .rejected T "Server startup timeout"
        ∧ timeoutMs < T ∧ T ≤ timeoutMs + 100)
    ∧ (∀ stdout₁ stdout₂ : List (Nat × String),
      sessionStartup stdout₁ stderrChunks exitTime timeoutMs
        = sessionStartup stdout₂ stderrChunks exitTime timeoutMs) := by
  refine ⟨?_, ?_, fun _ _ => rfl⟩
  · intro a ham ha hd
    unfold waitForServerReady
    have hmono := readyAt_mono stderrChunks
    rcases Nat.le_total a 400 with h400 | h400
    · exact pollLoop_resolves (readyAt stderrChunks) (deadAt exitTime)
        timeoutMs _ _ hmono hd a ha ham (timeoutMs + 1) 500 (by omega)
        (by omega) (Or.inl (hmono a 500 (by omega) ha))
    · exact pollLoop_resolves (readyAt stderrChunks) (deadAt exitTime)
        timeoutMs _ _ hmono hd a ha ham (timeoutMs + 1) 500 (by omega)
        (by omega) (Or.inr (by omega))
  · intro hch hd
    unfold waitForServerReady
    exact pollLoop_noCheck_rejects (readyAt stderrChunks) (deadAt exitTime)
      timeoutMs _ _ hch hd (timeoutMs + 1) 500 (by omega) (by omega)

/-- Witness for amended C4: the marker arriving on stderr at 200 ms
resolves the 30000 ms startup wait. -/
theorem readiness_spec_witness :
    ∃ T, waitForServerReady
        [(200, "Enhanced server started successfully")] none 30000
      = .resolved T := by
  refine (readiness_spec [(200, "Enhanced server started successfully")]
    none 30000 (by omega)).1 200 (by omega) ?_ (fun _ => rfl)
  decide

/-- C3: the direct-network fallback is attempted exactly when the protocol
path is unavailable (server file missing) or throws a failure whose
message contains `timeout` — which is precisely the startup-timeout and
request-timeout failures, not the process-died / missing-streams /
missing-stdin failures; when the protocol path returns a result envelope
(`.ok`, covering explicit server error envelopes and tool-reported
failures, since `parseSearchResponse` never throws), the envelope is
returned directly and the fallback is never attempted. -/
theorem fallbackRouting_spec (fenv : FetchOutcome) (mr e : Nat) :
    (∀ outcome, searchArxiv false outcome fenv mr e
      = fallbackArxivSearch fenv mr e)
    ∧ (searchArxiv true (.error .startupTimeout) fenv mr e
      = fallbackArxivSearch fenv mr e)
    ∧ (∀ p, searchArxiv true (.error (.responseTimeout p)) fenv mr e
      = fallbackArxivSearch fenv mr e)
    ∧ (∀ r, searchArxiv true (.ok r) fenv mr e = withExecTime r e)
    ∧ (∀ r, fallbackAttempted true (.ok r) = false)
    ∧ (∀ f, fallbackAttempted true (.error f)
      = strIncludes (ProtoFailure.message f) "timeout")
    ∧ fallbackAttempted true (.error .processDied) = false
    ∧ fallbackAttempted true (.error .noStreams) = false
    ∧ fallbackAttempted true (.error .stdinUnavailable) = false
    ∧ fallbackAttempted true (.error .startupTimeout) = true
    ∧ (∀ p, fallbackAttempted true (.error (.responseTimeout p)) = true) := by
  have hresp : ∀ p : String,
      strIncludes (ProtoFailure.message (.responseTimeout p)) "timeout"
        = true :=
    fun p => strIncludes_append_left p rfl
  refine ⟨fun outcome => rfl, rfl, ?_, fun r => rfl, fun r => rfl,
    fun f => rfl, rfl, rfl, rfl, rfl, fun p => hresp p⟩
  intro p
  simp [searchArxiv, hresp p]

/-- Witness for C3: with the server binary present, a request-timeout
failure routes to the fallback and a process-died failure does not. -/
theorem fallbackRouting_spec_witness :
    searchArxiv true (.error (.responseTimeout "\"id\":2")) (.ok []) 5 70
      = fallbackArxivSearch (.ok []) 5 70
    ∧ fallbackAttempted true (.error .processDied) = false := by
  have h := fallbackRouting_spec (.ok []) 5 70
  exact ⟨h.2.2.1 "\"id\":2", h.2.2.2.2.2.2.1⟩

/-- C6 counterexample: a fallback run that succeeds (one well-formed entry
from the direct arXiv API) returns `success: true` but carries no
`served_by` field at all — the success object of mcp.ts lines 465–470 has
exactly the fields success/papers/total_results/execution_time, so the
claimed `served_by: "fallback"` marker does not exist. -/
theorem servedBy_counterexample :
    (fallbackArxivSearch
        (.ok [some (.obj [("id", .str "1234.5"), ("title", .str "T")])])
        5 100).getField "success" = some (.bool true)
    ∧ (fallbackArxivSearch
        (.ok [some (.obj [("id", .str "1234.5"), ("title", .str "T")])])
        5 100).getField "served_by" = none :=
  ⟨rfl, rfl⟩

/-- C6 as amended: the fallback path never throws past its boundary — for
every environment it returns a structured object with a boolean `success`
field, carrying a structured error message when `success` is false; its
success result has exactly the protocol success shape
(success/papers/total_results/execution_time) — neither path carries a
`served_by` field; and a missing executable for the arXiv tool routes to
the fallback, which returns `success: true` whenever the direct HTTP
request succeeds. -/
theorem fallbackShape_spec (fenv : FetchOutcome) (mr e : Nat) :
    (∃ b, (fallbackArxivSearch fenv mr e).getField "success"
        = some (.bool b)
      ∧ (b = false → ∃ msg, (fallbackArxivSearch fenv mr e).getField "error"
          = some (.str msg)))
    ∧ (fallbackArxivSearch fenv mr e).getField "served_by" = none
    ∧ (∀ entries, jsonKeys (fallbackArxivSearch (.ok entries) mr e)
        = ["success", "papers", "total_results", "execution_time"])
    ∧ (∀ inner papers n, inner.getField "papers" = some papers →
        (inner.getField "success").elim false Json.truthy = true →
        papers.truthy = true → papers.lengthProp = some n →
        jsonKeys (buildFromInner inner)
          = ["success", "papers", "total_results", "execution_time"])
    ∧ (∀ outcome, searchArxiv false outcome fenv mr e
        = fallbackArxivSearch fenv mr e)
    ∧ (∀ entries outcome, (searchArxiv false outcome (.ok entries) mr e).getField
        "success" = some (.bool true)) := by
  refine ⟨?_, ?_, fun entries => rfl, ?_, fun outcome => rfl,
    fun entries outcome => rfl⟩
  · cases fenv with
    | netFail msg => exact ⟨false, rfl, fun _ => ⟨_, rfl⟩⟩
    | httpFail status statusText => exact ⟨false, rfl, fun _ => ⟨_, rfl⟩⟩
    | ok entries => exact ⟨true, rfl, fun h => absurd h (by simp)⟩
  · cases fenv <;> rfl
  · intro inner papers n hp hs ht hl
    unfold buildFromInner
    simp only [hp, hs, ht, hl, Bool.and_self, if_true]
    simp [jsonKeys]

/-- Witness for amended C6 at a failing fetch environment. -/
theorem fallbackShape_spec_witness :
    ∃ msg, (fallbackArxivSearch (.netFail "fetch failed") 5 40).getField
        "error" = some (.str msg) := by
  obtain ⟨b, hb, herr⟩ := (fallbackShape_spec (.netFail "fetch failed") 5 40).1
  have hbf : b = false := by
    have : (fallbackArxivSearch (.netFail "fetch failed") 5 40).getField
        "success" = some (.bool false) := rfl
    rw [this] at hb
    simpa using hb.symm
  exact herr hbf

theorem noise_handleLine {jparse : String → Option Json} {l : String}
    (t : Nat) (hn : NoiseLine jparse l) (ht : ¬ l.trim = "") :
    handleLine jparse t l = none := by
  rcases hn with h | h | ⟨p, hp, hid⟩
  · exact absurd h ht
  · unfold handleLine
    rw [h]
  · unfold handleLine
    rw [hp]
    simp [hid]

theorem serverLineLoop_skip (jparse : String → Option Json) (t : Nat)
    (l : String) (hl : handleLine jparse t l = none) :
    ∀ xs ys, serverLineLoop jparse t (xs ++ l :: ys)
      = serverLineLoop jparse t (xs ++ ys) := by
  intro xs
  induction xs with
  | nil =>
    intro ys
    simp only [List.nil_append, serverLineLoop, hl]
  | cons x xs ih =>
    intro ys
    simp only [List.cons_append, serverLineLoop, List.append_eq]
    rw [ih ys]

theorem serverLineLoop_allSkip (jparse : String → Option Json) (t : Nat) :
    ∀ lines, (∀ x ∈ lines, handleLine jparse t x = none) →
      serverLineLoop jparse t lines = noValidResultObj t := by
  intro lines
  induction lines with
  | nil => intro _; rfl
  | cons x xs ih =>
    intro h
    unfold serverLineLoop
    rw [h x (by simp), ih (fun y hy => h y (by simp [hy]))]

/-- C8: in the newline-delimited response scan of the simplified service,
lines that are not parseable JSON and parseable lines whose `id` does not
match the pending request are silently discarded without affecting the
result — removing (or inserting) such a noise line anywhere leaves the
outcome unchanged — and when every line is noise the scan ends in the
structured no-valid-response failure, so only a line whose `id` matches
the pending request can determine that request's result. -/
theorem noiseDiscard_spec (jparse : String → Option Json) (t : Nat)
    (pre post : List String) (l : String) (hn : NoiseLine jparse l) :
    parseServerResponse jparse (pre ++ l :: post) t
      = parseServerResponse jparse (pre ++ post) t
    ∧ ∀ lines : List String, (∀ x ∈ lines, NoiseLine jparse x) →
        parseServerResponse jparse lines t = noValidResultObj t := by
  constructor
  · unfold parseServerResponse
    rw [List.filter_append, List.filter_append]
    by_cases ht : l.trim = ""
    · have : (l :: post).filter (fun line => line.trim != "")
          = post.filter (fun line => line.trim != "") := by
        simp [List.filter_cons, ht]
      rw [this]
    · have : (l :: post).filter (fun line => line.trim != "")
          = l :: post.filter (fun line => line.trim != "") := by
        simp [List.filter_cons, ht]
      rw [this]
      exact serverLineLoop_skip jparse t l (noise_handleLine t hn ht) _ _
  · intro lines hnall
    unfold parseServerResponse
    refine serverLineLoop_allSkip jparse t _ (fun x hx => ?_)
    rw [List.mem_filter] at hx
    refine noise_handleLine t (hnall x hx.1) ?_
    simpa using hx.2

/-- Witness for C8: inserting an unparseable line between two others does
not change the outcome. -/
theorem noiseDiscard_spec_witness :
    parseServerResponse (fun _ => none) (["a"] ++ "noise" :: ["b"]) 7
      = parseServerResponse (fun _ => none) (["a"] ++ ["b"]) 7 :=
  (noiseDiscard_spec (fun _ => none) 7 ["a"] ["b"] "noise"
    (Or.inr (Or.inl rfl))).1

theorem errVal_truthy (o : Option Json) (d : String) (hd : (d != "") = true) :
    (Json.truthy (match o with
      | some e => if e.truthy then e else .str d
      | none => .str d)) = true := by
  rcases o with _ | e
  · simpa [Json.truthy] using hd
  · show Json.truthy (if e.truthy = true then e else Json.str d) = true
    by_cases h : e.truthy = true
    · rwa [if_pos h]
    · rw [if_neg h]
      simpa [Json.truthy] using hd

theorem buildInnerFailure_fields (inner : Json) :
    (buildFromInner.buildInnerFailure inner).getField "success"
      = some (.bool false)
    ∧ ∃ e, (buildFromInner.buildInnerFailure inner).getField "error" = some e
      ∧ e.truthy = true := by
  refine ⟨rfl, (match inner.getField "error" with
    | some e => if e.truthy then e else .str "No papers found"
    | none => .str "No papers found"), rfl, ?_⟩
  exact errVal_truthy (inner.getField "error") "No papers found" rfl

theorem buildFromInner_fields (inner : Json) :
    (buildFromInner inner).getField "success" = some (.bool true)
    ∨ ((buildFromInner inner).getField "success" = some (.bool false)
      ∧ ∃ e, (buildFromInner inner).getField "error" = some e
        ∧ e.truthy = true) := by
  unfold buildFromInner
  split
  · split
    · exact Or.inl rfl
    · exact Or.inr (buildInnerFailure_fields inner)
  · exact Or.inr (buildInnerFailure_fields inner)

theorem errorFallthrough_fields (jparse : String → Option Json)
    (chunks : List String) :
    (errorFallthrough jparse chunks).getField "success" = some (.bool false)
    ∧ ∃ e, (errorFallthrough jparse chunks).getField "error" = some e
      ∧ e.truthy = true := by
  unfold errorFallthrough
  split
  · split
    · exact ⟨rfl, _, rfl, errVal_truthy _ "Server error" rfl⟩
    · exact ⟨rfl, _, rfl, by decide⟩
  · exact ⟨rfl, _, rfl, by decide⟩

theorem handleChunk_some {jparse : String → Option Json} {chunk : String}
    {r : Json} (h : handleChunk jparse chunk = some r) :
    strIncludes chunk "\"id\":2" = true
    ∧ ∃ parsed, jparse chunk = some parsed
      ∧ ∃ s, contentTextStr parsed = some s
        ∧ ∃ inner, jparse s = some inner ∧ r = buildFromInner inner := by
  unfold handleChunk at h
  by_cases hid : strIncludes chunk "\"id\":2" = true
  · rw [if_pos hid] at h
    rcases hj : jparse chunk with _ | parsed
    · simp [hj] at h
    simp only [hj] at h
    rcases hct : contentTextStr parsed with _ | s
    · simp [hct] at h
    simp only [hct] at h
    rcases hin : jparse s with _ | inner
    · simp [hin] at h
    simp only [hin, Option.some.injEq] at h
    exact ⟨hid, parsed, rfl, s, hct, inner, hin, h.symm⟩
  · rw [if_neg hid] at h
    simp at h

theorem parseSearchLoop_cases (jparse : String → Option Json)
    (allChunks : List String) : ∀ scan,
    ((parseSearchResponse.parseSearchLoop jparse allChunks scan).getField
        "success" = some (.bool true) →
      ∃ chunk, chunk ∈ scan ∧ strIncludes chunk "\"id\":2" = true
        ∧ ∃ parsed, jparse chunk = some parsed
          ∧ ∃ s, contentTextStr parsed = some s
            ∧ ∃ inner, jparse s = some inner)
    ∧ ((parseSearchResponse.parseSearchLoop jparse allChunks scan).getField
        "success" = some (.bool false) →
      ∃ e, (parseSearchResponse.parseSearchLoop jparse allChunks
          scan).getField "error" = some e ∧ e.truthy = true)
    ∧ (∃ b, (parseSearchResponse.parseSearchLoop jparse allChunks
        scan).getField "success" = some (.bool b)) := by
  intro scan
  induction scan with
  | nil =>
    obtain ⟨hs, he⟩ := errorFallthrough_fields jparse allChunks
    refine ⟨fun h => ?_, fun _ => he, false, hs⟩
    rw [show parseSearchResponse.parseSearchLoop jparse allChunks []
      = errorFallthrough jparse allChunks from rfl, hs] at h
    simp at h
  | cons chunk rest ih =>
    rcases hh : handleChunk jparse chunk with _ | r
    · have hstep : parseSearchResponse.parseSearchLoop jparse allChunks
          (chunk :: rest)
          = parseSearchResponse.parseSearchLoop jparse allChunks rest := by
        simp only [parseSearchResponse.parseSearchLoop, hh]
      rw [hstep]
      obtain ⟨ih₁, ih₂, ih₃⟩ := ih
      refine ⟨fun h => ?_, ih₂, ih₃⟩
      obtain ⟨c, hc, hrest⟩ := ih₁ h
      exact ⟨c, List.mem_cons_of_mem chunk hc, hrest⟩
    · have hstep : parseSearchResponse.parseSearchLoop jparse allChunks
          (chunk :: rest) = r := by
        simp only [parseSearchResponse.parseSearchLoop, hh]
      rw [hstep]
      obtain ⟨hid, parsed, hp, s, hs, inner, hin, hr⟩ := handleChunk_some hh
      subst hr
      rcases buildFromInner_fields inner with hsucc | ⟨hsucc, he⟩
      · exact ⟨fun _ => ⟨chunk, by simp, hid, parsed, hp, s, hs, inner, hin⟩,
          fun h => by rw [hsucc] at h; simp at h, true, hsucc⟩
      · refine ⟨fun h => ?_, fun _ => he, false, hsucc⟩
        rw [hsucc] at h
        simp at h

/-- C7: in the enhanced service, a `tools/call` response envelope is
decoded and the text of its first content block is decoded a second time
as the tool-specific inner document; a `success: true` result can only
arise from a chunk for which both decode steps succeeded, and whenever no
chunk fully decodes (either the outer envelope or the inner embedded
document fails), the call yields a structured failure with a truthy
`error` value — never a silently empty success result. -/
theorem doubleDecode_spec (jparse : String → Option Json)
    (chunks : List String) :
    ((parseSearchResponse jparse chunks).getField "success"
        = some (.bool true) →
      ∃ chunk, chunk ∈ chunks ∧ strIncludes chunk "\"id\":2" = true
        ∧ ∃ parsed, jparse chunk = some parsed
          ∧ ∃ s, contentTextStr parsed = some s
            ∧ ∃ inner, jparse s = some inner)
    ∧ ((parseSearchResponse jparse chunks).getField "success"
        = some (.bool false) →
      ∃ e, (parseSearchResponse jparse chunks).getField "error" = some e
        ∧ e.truthy = true)
    ∧ (∃ b, (parseSearchResponse jparse chunks).getField "success"
        = some (.bool b)) :=
  parseSearchLoop_cases jparse chunks chunks

/-- Witness for C7: a stream whose only chunk mentions id 2 but fails the
outer decode ends in a structured failure with a truthy error value. -/
theorem doubleDecode_spec_witness :
    ∃ e, (parseSearchResponse (fun _ => none) ["\"id\":2"]).getField "error"
      = some e ∧ e.truthy = true :=
  (doubleDecode_spec (fun _ => none) ["\"id\":2"]).2.1 rfl

end McpRag
